import Mathlib

/-!
Verification of the Tolaria stack-resolution engine and its lightweight
relevance ranker.  The definitions below are a shallow embedding of the
Python sources:

* `src/stack/resolver.py` — `StackResolver._build_stack`,
  `StackResolver._generate_resolution_steps`,
  `StackResolver._generate_step_description`,
  `StackResolver._describe_state_after_step`;
* `src/rules/engine_lite.py` — `RulesEngineLite.search_relevant_rules`.

Python dictionaries become records holding the fields the engine reads;
Python strings become `String`, with the string primitives (lowercasing,
whitespace splitting, substring test, joining) spelled out over
`List Char` so that every definition evaluates by kernel reduction.
Python sets of strings become lists used only through membership.
-/

namespace Tolaria

/-- ASCII lowercasing of one character, as Python `str.lower` acts on the
ASCII strings handled by the engine. -/
def lowerChar (c : Char) : Char :=
  if 65 ≤ c.toNat ∧ c.toNat ≤ 90 then Char.ofNat (c.toNat + 32) else c

/-- Python `s.lower()`. -/
def lowerStr (s : String) : String := String.mk (s.data.map lowerChar)

/-- Does `needle` occur as a contiguous run inside the character list? -/
def subAux (needle : List Char) : List Char → Bool
  | [] => needle.isEmpty
  | c :: rest => needle.isPrefixOf (c :: rest) || subAux needle rest

/-- Python `needle in hay` on strings. -/
def strContains (hay needle : String) : Bool := subAux needle.data hay.data

/-- Accumulator-based splitting on whitespace runs, dropping empty pieces. -/
def splitWsAux : List Char → List Char → List String
  | [], acc => if acc.isEmpty then [] else [String.mk acc.reverse]
  | c :: rest, acc =>
    if c.isWhitespace then
      (if acc.isEmpty then [] else [String.mk acc.reverse]) ++ splitWsAux rest []
    else splitWsAux rest (c :: acc)

/-- Python `s.split()` with no separator: split on whitespace runs. -/
def splitWs (s : String) : List String := splitWsAux s.data []

/-- Python `sep.join(parts)`. -/
def joinSep (sep : String) : List String → String
  | [] => ""
  | [x] => x
  | x :: y :: rest => x ++ sep ++ joinSep sep (y :: rest)

/-- Size of the intersection of the word sets of two strings:
Python `len(set(a.split()) & set(b.split()))`. -/
def sharedWordCount (a b : String) : Nat :=
  (((splitWs a).dedup).filter (fun w => (splitWs b).contains w)).length

/-- Python `any(char.isdigit() for char in s)`. -/
def hasDigit (s : String) : Bool := s.data.any Char.isDigit

/-- Python `s.split(".")[0]`: the part of `s` before its first period. -/
def firstSegment (s : String) : String :=
  String.mk (s.data.takeWhile (fun c => c != '.'))

/-- The card fields read by the resolver (`name`, `oracle_text`, `found`).
A card whose Scryfall lookup failed is the placeholder from
`search_cards_bulk`: its `found` flag is `false` and it carries no oracle
text (`card.get("oracle_text", "")` yields the empty string). -/
structure Card where
  name : String
  oracle_text : String
  found : Bool
deriving DecidableEq, Repr

/-- One player action from the request: `card` names the card played,
`player` is `action.get("player", "Player")`, `targets` is
`action.get("targets", [])`. -/
structure Action where
  card : String
  player : String
  targets : List String
deriving DecidableEq, Repr

/-- One stack item built by `_build_stack`. -/
structure StackItem where
  card : Card
  controller : String
  targets : List String
  position : Nat
deriving DecidableEq, Repr

/-- One resolution step emitted by `_generate_resolution_steps`. -/
structure Step where
  step_number : Nat
  action : String
  card : Card
  description : String
  state_after : String
deriving DecidableEq, Repr

/-- The branch of `_build_stack` taken when `player_actions` is truthy:
for each action look the card up by exact name (`next(c for c in cards if
c.get("name") == card_name)`); on a hit append a stack item whose
`position` is `len(stack)`, otherwise skip the action. -/
def build_stack_actions_aux (cards : List Card) : List Action → Nat → List StackItem
  | [], _ => []
  | a :: rest, pos =>
    match cards.find? (fun c => c.name == a.card) with
    | some cd =>
      { card := cd, controller := a.player, targets := a.targets, position := pos }
        :: build_stack_actions_aux cards rest (pos + 1)
    | none => build_stack_actions_aux cards rest pos

/-- The fallback branch of `_build_stack`: walk the fetched cards with
`enumerate`, skip entries whose `found` flag is false, and use the
enumeration index for both the synthesized controller and `position`. -/
def build_stack_fallback_aux : List Card → Nat → List StackItem
  | [], _ => []
  | c :: rest, idx =>
    if c.found then
      { card := c, controller := "Player " ++ toString (idx % 2 + 1), targets := [],
        position := idx } :: build_stack_fallback_aux rest (idx + 1)
    else
      build_stack_fallback_aux rest (idx + 1)

/-- `StackResolver._build_stack`.  A `none` or empty action list is falsy
in Python, so both select the card-list fallback. -/
def build_stack (cards : List Card) (player_actions : Option (List Action)) : List StackItem :=
  match player_actions with
  | some (a :: rest) => build_stack_actions_aux cards (a :: rest) 0
  | _ => build_stack_fallback_aux cards 0

/-- The cancelled-set update performed at the start of each loop
iteration of `_generate_resolution_steps`: if the lowered oracle text
contains the phrase `"counter target"`, add all declared targets. -/
def step_cancel_set (acc : List String) (item : StackItem) : List String :=
  if strContains (lowerStr item.card.oracle_text) "counter target" then
    acc ++ item.targets
  else acc

/-- The cancelled set after processing a run of resolution-order items. -/
def cancel_set_after (acc : List String) : List StackItem → List String
  | [] => acc
  | it :: rest => cancel_set_after (step_cancel_set acc it) rest

/-- `StackResolver._describe_state_after_step`: slice the resolution
order after the 1-based current step; an empty remainder yields the fixed
empty-stack sentence, otherwise the remaining names joined in slice order
(top of stack first, as the suffix text says). -/
def describe_state_after_step (resolution_order : List StackItem) (current_step : Nat) : String :=
  let remaining := resolution_order.drop current_step
  if remaining.isEmpty then
    "Stack is empty. Priority returns to active player."
  else
    "Stack contains: " ++ joinSep ", " (remaining.map (fun it => it.card.name))
      ++ " (top to bottom)"

/-- `StackResolver._generate_step_description`. -/
def generate_step_description (item : StackItem) (is_last : Bool) : String :=
  let card := item.card
  let d0 := item.controller ++ " resolves " ++ card.name ++ ". "
  let d1 :=
    if card.oracle_text ≠ "" then
      let effect :=
        if strContains card.oracle_text "." then firstSegment card.oracle_text
        else card.oracle_text
      d0 ++ "Effect: " ++ effect ++ "."
    else d0
  let d2 :=
    if item.targets ≠ [] then
      d1 ++ " Targeting: " ++ joinSep ", " item.targets ++ "."
    else d1
  if is_last then d2 ++ " The stack is now empty." else d2

/-- The step record built for one resolution-order item, given the
cancelled set as it stands after this item added its own targets. -/
def mk_step (resolution_order : List StackItem) (item : StackItem) (idx : Nat)
    (cancelled : List String) : Step :=
  if cancelled.contains item.card.name then
    { step_number := idx
      action := item.card.name ++ " is countered"
      card := item.card
      description := item.card.name ++
        " is countered and does not resolve. It goes to the graveyard without its effect taking place."
      state_after := "This spell was countered and removed from the stack" }
  else
    { step_number := idx
      action := "Resolve " ++ item.card.name
      card := item.card
      description := generate_step_description item (idx == resolution_order.length)
      state_after := describe_state_after_step resolution_order idx }

/-- The loop of `_generate_resolution_steps`: 1-based enumeration over
the resolution order, threading the cancelled set. -/
def generate_steps_aux (resolution_order : List StackItem) :
    List StackItem → Nat → List String → List Step
  | [], _, _ => []
  | it :: rest, idx, acc =>
    let acc' := step_cancel_set acc it
    mk_step resolution_order it idx acc' :: generate_steps_aux resolution_order rest (idx + 1) acc'

/-- `StackResolver._generate_resolution_steps`: reverse the push order
and emit one step per entry. -/
def generate_resolution_steps (stack : List StackItem) : List Step :=
  generate_steps_aux stack.reverse stack.reverse 1 []

/-- A rule entry of the pre-processed corpus (`number`, `text`,
`section`). -/
structure Rule where
  number : String
  text : String
  sectionName : String
deriving DecidableEq, Repr

/-- A glossary entry: `key` is the dictionary key produced by the
pre-processor (`term.lower()`), and the stored record carries the
original `term` and its `definition`. -/
structure GlossaryEntry where
  key : String
  term : String
  definition : String
deriving DecidableEq, Repr

/-- The metadata attached to a ranked passage. -/
inductive PassageMeta where
  | rule (rule_number : String) (sectionName : String)
  | glossary (term : String)
deriving DecidableEq, Repr

/-- One scored search result of `search_relevant_rules`. -/
structure Passage where
  content : String
  metadata : PassageMeta
  score : Nat
deriving DecidableEq, Repr

/-- The rule-entry score of `search_relevant_rules`: +100 for the full
lowered query appearing in the lowered rule text, +10 per distinct shared
word, +50 when the query holds a digit and the rule number occurs in the
query verbatim. -/
def rule_score (query : String) (r : Rule) : Nat :=
  let ql := lowerStr query
  let tl := lowerStr r.text
  (if strContains tl ql then 100 else 0)
    + 10 * sharedWordCount ql tl
    + (if hasDigit query && strContains query r.number then 50 else 0)

/-- The glossary-entry score of `search_relevant_rules`: +150 when the
lowered query and the dictionary key contain one another, +80 for the
lowered query appearing in the lowered definition, +8 per distinct shared
word with the definition. -/
def glossary_score (query : String) (e : GlossaryEntry) : Nat :=
  let ql := lowerStr query
  let dl := lowerStr e.definition
  (if strContains e.key ql || strContains ql e.key then 150 else 0)
    + (if strContains dl ql then 80 else 0)
    + 8 * sharedWordCount ql dl

/-- The scored result appended for a rule entry, `none` when its score is
not positive. -/
def rule_passage (query : String) (r : Rule) : Option Passage :=
  let s := rule_score query r
  if 0 < s then
    some { content := "Rule " ++ r.number ++ ": " ++ r.text
           metadata := PassageMeta.rule r.number r.sectionName
           score := s }
  else none

/-- The scored result appended for a glossary entry, `none` when its
score is not positive. -/
def glossary_passage (query : String) (e : GlossaryEntry) : Option Passage :=
  let s := glossary_score query e
  if 0 < s then
    some { content := "Glossary - " ++ e.term ++ ": " ++ e.definition
           metadata := PassageMeta.glossary e.term
           score := s }
  else none

/-- The `scored_results` list before sorting: all positively scored rule
entries in corpus order, then all positively scored glossary entries in
iteration order. -/
def scored_results (query : String) (rules : List Rule) (glossary : List GlossaryEntry) :
    List Passage :=
  rules.filterMap (rule_passage query) ++ glossary.filterMap (glossary_passage query)

/-- Descending-score comparison used for the final stable sort
(`sort(key=lambda x: x["score"], reverse=True)`). -/
def scoreGE (a b : Passage) : Prop := b.score ≤ a.score

instance : DecidableRel scoreGE := fun a b => Nat.decLe b.score a.score

instance : IsTotal Passage scoreGE := ⟨fun a b => Nat.le_total b.score a.score⟩

instance : IsTrans Passage scoreGE := ⟨fun _ _ _ hab hbc => Nat.le_trans hbc hab⟩

/-- `RulesEngineLite.search_relevant_rules`: score every rule and
glossary entry, keep the positive scores, stable-sort by descending
score, return the first `k`. -/
def search_relevant_rules (query : String) (rules : List Rule)
    (glossary : List GlossaryEntry) (k : Nat) : List Passage :=
  (List.insertionSort scoreGE (scored_results query rules glossary)).take k

/-- Modelled from the spec wording of claim C5 only (for comparison with
`describe_state_after_step`): the remaining entries rendered as a
bottom-to-top name list. -/
def state_after_bottom_to_top (resolution_order : List StackItem) (current_step : Nat) : String :=
  let remaining := resolution_order.drop current_step
  if remaining.isEmpty then
    "Stack is empty. Priority returns to active player."
  else
    "Stack contains: " ++ joinSep ", " ((remaining.map (fun it => it.card.name)).reverse)
      ++ " (top to bottom)"

/-- Concrete card used by the examples below. -/
def boltCard : Card :=
  { name := "Lightning Bolt"
    oracle_text := "Lightning Bolt deals 3 damage to any target."
    found := true }

/-- Concrete card whose text carries the cancellation trigger phrase. -/
def counterspellCard : Card :=
  { name := "Counterspell", oracle_text := "Counter target spell.", found := true }

/-- Push order with the countering entry at the bottom of the stack, so
that it resolves after the entry it targets. -/
def counterFirstStack : List StackItem :=
  [{ card := counterspellCard, controller := "Player 1", targets := ["Lightning Bolt"],
     position := 0 },
   { card := boltCard, controller := "Player 2", targets := ["Player 1"], position := 1 }]

/-- Push order with the countering entry on top of the stack, so that it
resolves first and cancels the entry below it. -/
def boltFirstStack : List StackItem :=
  [{ card := boltCard, controller := "Player 1", targets := ["Player 2"], position := 0 },
   { card := counterspellCard, controller := "Player 2", targets := ["Lightning Bolt"],
     position := 1 }]

/-- A card whose own text counters itself by naming itself as target. -/
def selfCounterItem : StackItem :=
  { card := { name := "Reflexive Veto", oracle_text := "Counter target spell.", found := true }
    controller := "Player 1"
    targets := ["Reflexive Veto"]
    position := 0 }

/-- Three plain cards with no cancellation text anywhere. -/
def alphaCard : Card := { name := "Alpha", oracle_text := "Alpha effect.", found := true }

def bravoCard : Card := { name := "Bravo", oracle_text := "Bravo effect.", found := true }

def cedarCard : Card := { name := "Cedar", oracle_text := "Cedar effect.", found := true }

/-- Push order of the three plain cards. -/
def plainStack : List StackItem :=
  [{ card := alphaCard, controller := "Player 1", targets := [], position := 0 },
   { card := bravoCard, controller := "Player 2", targets := [], position := 1 },
   { card := cedarCard, controller := "Player 1", targets := [], position := 2 }]

/-- The placeholder entry `search_cards_bulk` makes for a failed lookup. -/
def ghostCard : Card := { name := "Ghost Card", oracle_text := "", found := false }

/-- An action that names the card whose lookup failed. -/
def ghostAction : Action := { card := "Ghost Card", player := "Player 1", targets := [] }

/-- Fifteen distinct single-letter words. -/
def query15 : String := "a b c d e f g h i j k l m n o"

/-- A glossary entry whose key is exactly the fifteen-word query. -/
def gloss15 : GlossaryEntry := { key := query15, term := query15, definition := "zz" }

/-- A rule sharing all fifteen words with the query without containing
the query as a phrase. -/
def rule15 : Rule :=
  { number := "999", text := "o n m l k j i h g f e d c b a", sectionName := "X" }

/-- Glossary entry and rule used by the C9 witness. -/
def flyingEntry : GlossaryEntry :=
  { key := "flying", term := "Flying", definition := "A keyword evasion ability." }

/-- The passage the ranker builds for `flyingEntry` on query `flying`. -/
def flyingPassage : Passage :=
  { content := "Glossary - Flying: A keyword evasion ability."
    metadata := PassageMeta.glossary "Flying"
    score := 150 }

def blockRule : Rule :=
  { number := "702.9"
    text := "A creature with this evasion ability can be blocked only by special creatures."
    sectionName := "Keyword Abilities" }

/-! ### Helper lemmas about the resolution sequencer -/

theorem generate_steps_aux_length (ro : List StackItem) :
    ∀ (items : List StackItem) (idx : Nat) (acc : List String),
      (generate_steps_aux ro items idx acc).length = items.length
  | [], _, _ => rfl
  | _ :: rest, idx, acc => by
    simp [generate_steps_aux, generate_steps_aux_length ro rest]

theorem generate_resolution_steps_length (stack : List StackItem) :
    (generate_resolution_steps stack).length = stack.length := by
  simp [generate_resolution_steps, generate_steps_aux_length]

theorem mk_step_card (ro : List StackItem) (item : StackItem) (idx : Nat) (c : List String) :
    (mk_step ro item idx c).card = item.card := by
  unfold mk_step; split <;> rfl

theorem mk_step_step_number (ro : List StackItem) (item : StackItem) (idx : Nat)
    (c : List String) : (mk_step ro item idx c).step_number = idx := by
  unfold mk_step; split <;> rfl

theorem mk_step_action_of_mem (ro : List StackItem) (item : StackItem) (idx : Nat)
    (c : List String) (h : item.card.name ∈ c) :
    (mk_step ro item idx c).action = item.card.name ++ " is countered" := by
  simp [mk_step, h]

theorem mk_step_state_after_of_mem (ro : List StackItem) (item : StackItem) (idx : Nat)
    (c : List String) (h : item.card.name ∈ c) :
    (mk_step ro item idx c).state_after =
      "This spell was countered and removed from the stack" := by
  simp [mk_step, h]

theorem mk_step_state_after_of_not_mem (ro : List StackItem) (item : StackItem) (idx : Nat)
    (c : List String) (h : item.card.name ∉ c) :
    (mk_step ro item idx c).state_after = describe_state_after_step ro idx := by
  simp [mk_step, h]

theorem cancel_set_after_append (acc : List String) (l1 l2 : List StackItem) :
    cancel_set_after acc (l1 ++ l2) = cancel_set_after (cancel_set_after acc l1) l2 := by
  induction l1 generalizing acc with
  | nil => rfl
  | cons it rest ih => simp [cancel_set_after, ih]

theorem mem_step_cancel_set_of_mem {acc : List String} {n : String} (it : StackItem)
    (h : n ∈ acc) : n ∈ step_cancel_set acc it := by
  unfold step_cancel_set
  split
  · exact List.mem_append_left _ h
  · exact h

theorem mem_step_cancel_set_of_target {acc : List String} {n : String} (it : StackItem)
    (hph : strContains (lowerStr it.card.oracle_text) "counter target" = true)
    (hn : n ∈ it.targets) : n ∈ step_cancel_set acc it := by
  unfold step_cancel_set
  rw [if_pos hph]
  exact List.mem_append_right _ hn

theorem mem_cancel_set_after_of_mem {n : String} :
    ∀ (l : List StackItem) {acc : List String}, n ∈ acc → n ∈ cancel_set_after acc l
  | [], _, h => h
  | it :: rest, _, h =>
    mem_cancel_set_after_of_mem rest (mem_step_cancel_set_of_mem it h)

theorem mem_cancel_set_take (l : List StackItem) (acc : List String) (i j : Nat)
    (hi : i < l.length) (hij : i < j)
    (hph : strContains (lowerStr ((l.get ⟨i, hi⟩).card.oracle_text)) "counter target" = true)
    (n : String) (hn : n ∈ (l.get ⟨i, hi⟩).targets) :
    n ∈ cancel_set_after acc (l.take j) := by
  have hj' : j = (i + 1) + (j - (i + 1)) := by omega
  rw [hj', List.take_add, cancel_set_after_append]
  apply mem_cancel_set_after_of_mem
  rw [← List.take_concat_get l i hi, List.concat_eq_append, cancel_set_after_append]
  show n ∈ cancel_set_after (step_cancel_set _ _) []
  exact mem_step_cancel_set_of_target _ (by simpa using hph) (by simpa using hn)

theorem generate_steps_aux_getElem? (ro : List StackItem) :
    ∀ (items : List StackItem) (idx : Nat) (acc : List String) (k : Nat),
      (generate_steps_aux ro items idx acc)[k]? =
        (items[k]?).map (fun it =>
          mk_step ro it (idx + k) (step_cancel_set (cancel_set_after acc (items.take k)) it))
  | [], idx, acc, k => by simp [generate_steps_aux]
  | it :: rest, idx, acc, 0 => by
    simp [generate_steps_aux, cancel_set_after]
  | it :: rest, idx, acc, k + 1 => by
    have ih := generate_steps_aux_getElem? ro rest (idx + 1) (step_cancel_set acc it) k
    simp only [generate_steps_aux, List.getElem?_cons_succ, List.take_succ_cons]
    rw [ih]
    have harith : idx + 1 + k = idx + (k + 1) := by omega
    rw [harith]
    rfl

theorem generate_resolution_steps_get (stack : List StackItem) (k : Nat)
    (hk : k < stack.reverse.length) (hk2 : k < (generate_resolution_steps stack).length) :
    (generate_resolution_steps stack).get ⟨k, hk2⟩ =
      mk_step stack.reverse (stack.reverse.get ⟨k, hk⟩) (1 + k)
        (step_cancel_set (cancel_set_after [] (stack.reverse.take k))
          (stack.reverse.get ⟨k, hk⟩)) := by
  have h2 : (generate_resolution_steps stack)[k]? =
      ((stack.reverse)[k]?).map (fun it =>
        mk_step stack.reverse it (1 + k)
          (step_cancel_set (cancel_set_after [] (stack.reverse.take k)) it)) :=
    generate_steps_aux_getElem? stack.reverse stack.reverse 1 [] k
  rw [List.getElem?_eq_getElem hk2, List.getElem?_eq_getElem hk] at h2
  simp only [Option.map_some'] at h2
  simp only [List.get_eq_getElem]
  exact Option.some.inj h2

theorem generate_steps_aux_map_card (ro : List StackItem) :
    ∀ (items : List StackItem) (idx : Nat) (acc : List String),
      (generate_steps_aux ro items idx acc).map (fun s => s.card) =
        items.map (fun it => it.card)
  | [], _, _ => rfl
  | it :: rest, idx, acc => by
    simp [generate_steps_aux, mk_step_card, generate_steps_aux_map_card ro rest]

theorem generate_steps_aux_map_number (ro : List StackItem) :
    ∀ (items : List StackItem) (idx : Nat) (acc : List String),
      (generate_steps_aux ro items idx acc).map (fun s => s.step_number) =
        List.range' idx items.length
  | [], _, _ => rfl
  | it :: rest, idx, acc => by
    simp [generate_steps_aux, mk_step_step_number, generate_steps_aux_map_number ro rest,
      List.range'_succ]

/-- C2: for every stack, exactly one step per entry, `step_number` is the
1-based resolution index, and the steps walk the push order in reverse:
the step cards are exactly the reversed push-order cards. -/
theorem c2_steps_reverse_push_order (stack : List StackItem) :
    (generate_resolution_steps stack).length = stack.length ∧
    (generate_resolution_steps stack).map (fun s => s.step_number) =
      List.range' 1 stack.length ∧
    (generate_resolution_steps stack).map (fun s => s.card) =
      (stack.map (fun it => it.card)).reverse := by
  refine ⟨generate_resolution_steps_length stack, ?_, ?_⟩
  · have h := generate_steps_aux_map_number stack.reverse stack.reverse 1 []
    simpa [generate_resolution_steps] using h
  · have h := generate_steps_aux_map_card stack.reverse stack.reverse 1 []
    simpa [generate_resolution_steps, List.map_reverse] using h

/-- C10: an entry that carries the cancellation phrase and names itself in
its own targets is emitted as countered: its targets enter the cancelled
set before its own membership test. -/
theorem c10_self_target_is_countered (stack : List StackItem) (j : Nat)
    (hj : j < stack.reverse.length) (hj2 : j < (generate_resolution_steps stack).length)
    (hph : strContains (lowerStr ((stack.reverse.get ⟨j, hj⟩).card.oracle_text))
      "counter target" = true)
    (hself : (stack.reverse.get ⟨j, hj⟩).card.name ∈ (stack.reverse.get ⟨j, hj⟩).targets) :
    ((generate_resolution_steps stack).get ⟨j, hj2⟩).action =
      (stack.reverse.get ⟨j, hj⟩).card.name ++ " is countered" := by
  rw [generate_resolution_steps_get stack j hj hj2]
  exact mk_step_action_of_mem _ _ _ _ (mem_step_cancel_set_of_target _ hph hself)

/-- C10 witness: a concrete self-targeting counterspell is countered. -/
theorem c10_witness :
    ((generate_resolution_steps [selfCounterItem]).get ⟨0, by decide⟩).action =
      "Reflexive Veto is countered" := by
  have h := c10_self_target_is_countered [selfCounterItem] 0 (by decide) (by decide)
    (by decide) (by decide)
  exact h.trans (by decide)

/-- C1 counterexample: the conditions of the claim hold (the counterspell
entry carries the trigger phrase and targets the bolt by exact name), yet
because the counterspell sits below the bolt it resolves second, and the
bolt step is a normal resolve step, not a countered one. -/
theorem c1_counterexample :
    strContains (lowerStr counterspellCard.oracle_text) "counter target" = true ∧
    boltCard.name ∈ (counterFirstStack.get ⟨0, by decide⟩).targets ∧
    (generate_resolution_steps counterFirstStack).map (fun s => s.action) =
      ["Resolve Lightning Bolt", "Resolve Counterspell"] ∧
    "Resolve Lightning Bolt" ≠ boltCard.name ++ " is countered" := by decide

/-- C1, amended: the cancellation does reach the target whenever the
countering entry comes strictly earlier in resolution order. -/
theorem c1_cancel_when_counter_resolves_first (stack : List StackItem) (i j : Nat)
    (hi : i < stack.reverse.length) (hj : j < stack.reverse.length)
    (hj2 : j < (generate_resolution_steps stack).length) (hij : i < j)
    (hph : strContains (lowerStr ((stack.reverse.get ⟨i, hi⟩).card.oracle_text))
      "counter target" = true)
    (htg : (stack.reverse.get ⟨j, hj⟩).card.name ∈ (stack.reverse.get ⟨i, hi⟩).targets) :
    ((generate_resolution_steps stack).get ⟨j, hj2⟩).action =
      (stack.reverse.get ⟨j, hj⟩).card.name ++ " is countered" := by
  rw [generate_resolution_steps_get stack j hj hj2]
  apply mk_step_action_of_mem
  apply mem_step_cancel_set_of_mem
  exact mem_cancel_set_take stack.reverse [] i j hi hij hph _ htg

/-- C1 witness: with the counterspell on top of the stack it resolves
first and the bolt below it is countered. -/
theorem c1_witness :
    ((generate_resolution_steps boltFirstStack).get ⟨1, by decide⟩).action =
      "Lightning Bolt is countered" := by
  have h := c1_cancel_when_counter_resolves_first boltFirstStack 0 1 (by decide) (by decide)
    (by decide) (by decide) (by decide) (by decide)
  exact h.trans (by decide)

/-! ### Claims C5 and C6: the stateAfter snapshots -/

/-- C5 counterexample: for three plain entries the first step renders the
remaining names in resolution-order (top-to-bottom), not bottom-to-top as
the claim reads. -/
theorem c5_counterexample :
    ((generate_resolution_steps plainStack).get ⟨0, by decide⟩).state_after =
      "Stack contains: Bravo, Alpha (top to bottom)" ∧
    ((generate_resolution_steps plainStack).get ⟨0, by decide⟩).state_after ≠
      state_after_bottom_to_top plainStack.reverse 1 := by decide

/-- C5, amended: a non-cancelled, non-final step lists exactly the
entries remaining after it in resolution order, rendered top-to-bottom. -/
theorem c5_state_after_top_to_bottom (stack : List StackItem) (i : Nat)
    (hi : i < stack.reverse.length) (hi2 : i < (generate_resolution_steps stack).length)
    (hlast : i + 1 < stack.reverse.length)
    (hnc : (stack.reverse.get ⟨i, hi⟩).card.name ∉
      step_cancel_set (cancel_set_after [] (stack.reverse.take i))
        (stack.reverse.get ⟨i, hi⟩)) :
    ((generate_resolution_steps stack).get ⟨i, hi2⟩).state_after =
      "Stack contains: " ++
        joinSep ", " ((stack.reverse.drop (i + 1)).map (fun it => it.card.name)) ++
        " (top to bottom)" := by
  rw [generate_resolution_steps_get stack i hi hi2,
    mk_step_state_after_of_not_mem _ _ _ _ hnc]
  unfold describe_state_after_step
  rw [Nat.add_comm 1 i]
  have hne : (stack.reverse.drop (i + 1)).isEmpty = false := by
    have hlen : (stack.reverse.drop (i + 1)).length = stack.reverse.length - (i + 1) :=
      List.length_drop (i + 1) stack.reverse
    rcases he : stack.reverse.drop (i + 1) with _ | ⟨x, xs⟩
    · rw [he] at hlen
      simp only [List.length_nil] at hlen
      omega
    · rfl
  simp [hne]

/-- C5 witness: step 1 of the three plain entries lists the two remaining
names top-to-bottom. -/
theorem c5_witness :
    ((generate_resolution_steps plainStack).get ⟨0, by decide⟩).state_after =
      "Stack contains: " ++
        joinSep ", " ((plainStack.reverse.drop 1).map (fun it => it.card.name)) ++
        " (top to bottom)" :=
  c5_state_after_top_to_bottom plainStack 0 (by decide) (by decide) (by decide) (by decide)

/-- C6 counterexample: when the final resolution step is itself countered
its stateAfter is the fixed countered sentence, not the empty-stack
terminal phrase. -/
theorem c6_counterexample :
    (generate_resolution_steps boltFirstStack).map (fun s => s.state_after) =
      ["Stack contains: Lightning Bolt (top to bottom)",
        "This spell was countered and removed from the stack"] ∧
    "This spell was countered and removed from the stack" ≠
      "Stack is empty. Priority returns to active player." := by decide

/-- C6, amended: the final step of a non-empty stack renders the
empty-stack terminal phrase exactly when it is not itself countered;
a countered final step renders the fixed countered sentence instead. -/
theorem c6_final_state_after (stack : List StackItem) (h : 0 < stack.length)
    (hk : stack.length - 1 < stack.reverse.length)
    (hk2 : stack.length - 1 < (generate_resolution_steps stack).length) :
    ((generate_resolution_steps stack).get ⟨stack.length - 1, hk2⟩).state_after =
      if (stack.reverse.get ⟨stack.length - 1, hk⟩).card.name ∈
          step_cancel_set (cancel_set_after [] (stack.reverse.take (stack.length - 1)))
            (stack.reverse.get ⟨stack.length - 1, hk⟩) then
        "This spell was countered and removed from the stack"
      else
        "Stack is empty. Priority returns to active player." := by
  rw [generate_resolution_steps_get stack (stack.length - 1) hk hk2]
  by_cases hmem : (stack.reverse.get ⟨stack.length - 1, hk⟩).card.name ∈
      step_cancel_set (cancel_set_after [] (stack.reverse.take (stack.length - 1)))
        (stack.reverse.get ⟨stack.length - 1, hk⟩)
  · rw [if_pos hmem]
    exact mk_step_state_after_of_mem _ _ _ _ hmem
  · rw [if_neg hmem, mk_step_state_after_of_not_mem _ _ _ _ hmem]
    unfold describe_state_after_step
    have harith : 1 + (stack.length - 1) = stack.reverse.length := by
      rw [List.length_reverse]; omega
    rw [harith, List.drop_length]
    rfl

/-- C6 witness: for the plain three-entry stack the final step is not
countered and its stateAfter is the empty-stack phrase. -/
theorem c6_witness :
    ((generate_resolution_steps plainStack).get ⟨2, by decide⟩).state_after =
      "Stack is empty. Priority returns to active player." := by
  have h := c6_final_state_after plainStack (by decide) (by decide) (by decide)
  exact h.trans (by decide)

/-! ### Claims C4 and C7: the stack builder -/

theorem build_stack_fallback_found :
    ∀ (cards : List Card) (idx : Nat) (it : StackItem),
      it ∈ build_stack_fallback_aux cards idx → it.card.found = true
  | [], _, _, h => absurd h (List.not_mem_nil _)
  | c :: rest, idx, it, h => by
    unfold build_stack_fallback_aux at h
    by_cases hf : c.found
    · rw [if_pos hf] at h
      rcases List.mem_cons.mp h with rfl | h2
      · exact hf
      · exact build_stack_fallback_found rest (idx + 1) it h2
    · rw [if_neg hf] at h
      exact build_stack_fallback_found rest (idx + 1) it h

theorem build_stack_actions_card_from_find :
    ∀ (cards : List Card) (acts : List Action) (pos : Nat) (it : StackItem),
      it ∈ build_stack_actions_aux cards acts pos →
      ∃ a, a ∈ acts ∧ cards.find? (fun c => c.name == a.card) = some it.card
  | _, [], _, _, h => absurd h (List.not_mem_nil _)
  | cards, a :: rest, pos, it, h => by
    unfold build_stack_actions_aux at h
    rcases hf : cards.find? (fun c => c.name == a.card) with _ | cd
    · rw [hf] at h
      obtain ⟨a2, ha2, hfind⟩ := build_stack_actions_card_from_find cards rest pos it h
      exact ⟨a2, List.mem_cons_of_mem a ha2, hfind⟩
    · rw [hf] at h
      rcases List.mem_cons.mp h with rfl | h2
      · exact ⟨a, List.mem_cons_self a rest, hf⟩
      · obtain ⟨a2, ha2, hfind⟩ :=
          build_stack_actions_card_from_find cards rest (pos + 1) it h2
        exact ⟨a2, List.mem_cons_of_mem a ha2, hfind⟩

/-- C4 counterexample: an action naming a card whose lookup failed still
pushes the found-false placeholder onto the stack, because the actions
branch matches by name only. -/
theorem c4_counterexample :
    build_stack [ghostCard] (some [ghostAction]) =
      [{ card := ghostCard, controller := "Player 1", targets := [], position := 0 }] ∧
    ghostCard.found = false := by decide

/-- C4, amended: a found-false card is excluded only in the card-list
fallback; when Actions are supplied every produced entry simply carries
whatever card the by-name lookup returned, found or not (an action whose
name matches no fetched card is skipped). -/
theorem c4_not_found_cards (cards : List Card) (a : Action) (acts : List Action) :
    (∀ it ∈ build_stack cards none, it.card.found = true) ∧
    (∀ it ∈ build_stack cards (some (a :: acts)),
      ∃ a2, a2 ∈ a :: acts ∧ cards.find? (fun c => c.name == a2.card) = some it.card) := by
  constructor
  · intro it h
    exact build_stack_fallback_found cards 0 it h
  · intro it h
    exact build_stack_actions_card_from_find cards (a :: acts) 0 it h

/-- C4 witness: the fallback part applied to one found card. -/
theorem c4_witness :
    ({ card := boltCard, controller := "Player 1", targets := [], position := 0 } :
      StackItem).card.found = true :=
  (c4_not_found_cards [boltCard] ghostAction []).1
    { card := boltCard, controller := "Player 1", targets := [], position := 0 } (by decide)

theorem build_stack_actions_positions (cards : List Card) :
    ∀ (acts : List Action) (pos : Nat),
      (build_stack_actions_aux cards acts pos).map (fun it => it.position) =
        List.range' pos (build_stack_actions_aux cards acts pos).length
  | [], _ => rfl
  | a :: rest, pos => by
    unfold build_stack_actions_aux
    rcases hf : cards.find? (fun c => c.name == a.card) with _ | cd
    · rw [hf]
      exact build_stack_actions_positions cards rest pos
    · rw [hf]
      simp [build_stack_actions_positions cards rest (pos + 1), List.range'_succ]

theorem build_stack_fallback_position_lb :
    ∀ (cards : List Card) (idx : Nat) (it : StackItem),
      it ∈ build_stack_fallback_aux cards idx → idx ≤ it.position
  | [], _, _, h => absurd h (List.not_mem_nil _)
  | c :: rest, idx, it, h => by
    unfold build_stack_fallback_aux at h
    by_cases hf : c.found
    · rw [if_pos hf] at h
      rcases List.mem_cons.mp h with rfl | h2
      · exact Nat.le_refl idx
      · exact Nat.le_of_succ_le (build_stack_fallback_position_lb rest (idx + 1) it h2)
    · rw [if_neg hf] at h
      exact Nat.le_of_succ_le (build_stack_fallback_position_lb rest (idx + 1) it h)

theorem build_stack_fallback_positions_increasing :
    ∀ (cards : List Card) (idx : Nat),
      (build_stack_fallback_aux cards idx).Pairwise (fun x y => x.position < y.position)
  | [], _ => List.Pairwise.nil
  | c :: rest, idx => by
    unfold build_stack_fallback_aux
    by_cases hf : c.found
    · rw [if_pos hf]
      refine List.Pairwise.cons ?_ (build_stack_fallback_positions_increasing rest (idx + 1))
      intro it hit
      have := build_stack_fallback_position_lb rest (idx + 1) it hit
      simpa using Nat.lt_of_succ_le this
    · rw [if_neg hf]
      exact build_stack_fallback_positions_increasing rest (idx + 1)

/-- C7 counterexample: in the card-list fallback a skipped found-false
card leaves a gap, so positions are the raw input indices and do not
start at 0. -/
theorem c7_counterexample :
    (build_stack [ghostCard, boltCard] none).map (fun it => it.position) = [1] ∧
    (build_stack [ghostCard, boltCard] none).map (fun it => it.position) ≠
      List.range (build_stack [ghostCard, boltCard] none).length := by decide

/-- C7, amended: in the actions branch positions are the running count of
entries already appended, hence contiguous from 0; in the card-list
fallback positions are the enumeration indices of the kept cards, which
are strictly increasing in push order but can skip over found-false
cards. -/
theorem c7_positions (cards cards2 : List Card) (a : Action) (acts : List Action) :
    (build_stack cards (some (a :: acts))).map (fun it => it.position) =
      List.range ((build_stack cards (some (a :: acts))).length) ∧
    (build_stack cards2 none).Pairwise (fun x y => x.position < y.position) := by
  constructor
  · have h := build_stack_actions_positions cards (a :: acts) 0
    rw [List.range_eq_range']
    exact h
  · exact build_stack_fallback_positions_increasing cards2 0

/-! ### Claims C3, C8, C9: the relevance ranker -/

theorem isPrefixOf_self (l : List Char) : l.isPrefixOf l = true := by
  induction l with
  | nil => rfl
  | cons c t ih => simp [List.isPrefixOf, ih]

theorem strContains_self (s : String) : strContains s s = true := by
  unfold strContains
  rcases hd : s.data with _ | ⟨c, t⟩
  · rfl
  · simp [subAux, isPrefixOf_self]

/-- C8: the ranker returns the first `k` elements of the stable
descending sort of the scored results: at most `k` passages, sorted by
descending score, and within every score class the sorted list keeps the
original order of the scored results (rules first, then glossary, each in
insertion order). -/
theorem c8_top_k_sorted_stable (query : String) (rules : List Rule)
    (glossary : List GlossaryEntry) (k : Nat) :
    search_relevant_rules query rules glossary k =
      (List.insertionSort scoreGE (scored_results query rules glossary)).take k ∧
    (search_relevant_rules query rules glossary k).length ≤ k ∧
    List.Sorted scoreGE (List.insertionSort scoreGE (scored_results query rules glossary)) ∧
    ∀ s : Nat,
      (List.insertionSort scoreGE (scored_results query rules glossary)).filter
          (fun p => p.score == s) =
        (scored_results query rules glossary).filter (fun p => p.score == s) := by
  refine ⟨rfl, ?_, List.sorted_insertionSort scoreGE _, ?_⟩
  · rw [search_relevant_rules, List.length_take]
    exact Nat.min_le_left _ _
  · intro s
    have hpw : ((scored_results query rules glossary).filter
        (fun p => p.score == s)).Pairwise scoreGE := by
      apply List.pairwise_of_forall_mem_list
      intro x hx y hy
      have hx2 : x.score = s := by simpa using (List.mem_filter.mp hx).2
      have hy2 : y.score = s := by simpa using (List.mem_filter.mp hy).2
      unfold scoreGE
      omega
    have h1 : List.Sublist
        ((scored_results query rules glossary).filter (fun p => p.score == s))
        (List.insertionSort scoreGE (scored_results query rules glossary)) :=
      List.sublist_insertionSort hpw (List.filter_sublist _)
    have h2 := h1.filter (fun p => p.score == s)
    rw [List.filter_eq_self.mpr (fun x hx => (List.mem_filter.mp hx).2)] at h2
    have h3 : ((List.insertionSort scoreGE (scored_results query rules glossary)).filter
          (fun p => p.score == s)).length =
        ((scored_results query rules glossary).filter (fun p => p.score == s)).length :=
      ((List.perm_insertionSort scoreGE _).filter _).length_eq
    exact (h2.eq_of_length h3.symm).symm

/-- C3: every returned passage has a positive score that equals the
additive formula of the spec, evaluated on the rule or glossary entry it
was built from (case-insensitive via lowering; the glossary key is the
lowered term). -/
theorem c3_returned_scores_match_formula (query : String) (rules : List Rule)
    (glossary : List GlossaryEntry) (k : Nat)
    (hkey : ∀ e ∈ glossary, e.key = lowerStr e.term) :
    ∀ p ∈ search_relevant_rules query rules glossary k,
      0 < p.score ∧
      ((∃ r, r ∈ rules ∧ p.content = "Rule " ++ r.number ++ ": " ++ r.text ∧
          p.score =
            (if strContains (lowerStr r.text) (lowerStr query) then 100 else 0)
              + 10 * sharedWordCount (lowerStr query) (lowerStr r.text)
              + (if hasDigit query && strContains query r.number then 50 else 0)) ∨
       (∃ e, e ∈ glossary ∧ p.content = "Glossary - " ++ e.term ++ ": " ++ e.definition ∧
          p.score =
            (if strContains (lowerStr query) (lowerStr e.term)
                || strContains (lowerStr e.term) (lowerStr query) then 150 else 0)
              + (if strContains (lowerStr e.definition) (lowerStr query) then 80 else 0)
              + 8 * sharedWordCount (lowerStr query) (lowerStr e.definition))) := by
  intro p hp
  have hp1 : p ∈ List.insertionSort scoreGE (scored_results query rules glossary) :=
    List.mem_of_mem_take hp
  have hp2 : p ∈ scored_results query rules glossary :=
    (List.perm_insertionSort scoreGE _).mem_iff.mp hp1
  rcases List.mem_append.mp hp2 with hmem | hmem
  · obtain ⟨r, hr, hfr⟩ := List.mem_filterMap.mp hmem
    unfold rule_passage at hfr
    by_cases hs : 0 < rule_score query r
    · rw [if_pos hs] at hfr
      obtain rfl : _ = p := Option.some.inj hfr
      exact ⟨hs, Or.inl ⟨r, hr, rfl, rfl⟩⟩
    · rw [if_neg hs] at hfr
      exact absurd hfr (by simp)
  · obtain ⟨e, he, hfe⟩ := List.mem_filterMap.mp hmem
    unfold glossary_passage at hfe
    by_cases hs : 0 < glossary_score query e
    · rw [if_pos hs] at hfe
      obtain rfl : _ = p := Option.some.inj hfe
      refine ⟨hs, Or.inr ⟨e, he, rfl, ?_⟩⟩
      show glossary_score query e = _
      unfold glossary_score
      rw [hkey e he, Bool.or_comm]
    · rw [if_neg hs] at hfe
      exact absurd hfe (by simp)

/-- C3 witness: a query matching one glossary term against one
non-matching rule returns exactly the glossary passage, whose score is
the formula value 150. -/
theorem c3_witness :
    0 < flyingPassage.score ∧
    ((∃ r, r ∈ [blockRule] ∧
        flyingPassage.content = "Rule " ++ r.number ++ ": " ++ r.text ∧
        flyingPassage.score =
          (if strContains (lowerStr r.text) (lowerStr "flying") then 100 else 0)
            + 10 * sharedWordCount (lowerStr "flying") (lowerStr r.text)
            + (if hasDigit "flying" && strContains "flying" r.number then 50 else 0)) ∨
     (∃ e, e ∈ [flyingEntry] ∧
        flyingPassage.content = "Glossary - " ++ e.term ++ ": " ++ e.definition ∧
        flyingPassage.score =
          (if strContains (lowerStr "flying") (lowerStr e.term)
              || strContains (lowerStr e.term) (lowerStr "flying") then 150 else 0)
            + (if strContains (lowerStr e.definition) (lowerStr "flying") then 80 else 0)
            + 8 * sharedWordCount (lowerStr "flying") (lowerStr e.definition))) :=
  c3_returned_scores_match_formula "flying" [blockRule] [flyingEntry] 5 (by decide)
    flyingPassage (by decide)

/-- C9 counterexample: a fifteen-word query that is exactly a glossary
term, against a rule whose only signal is sharing all fifteen distinct
words, gives 150 points to both, so the glossary entry does not score
strictly higher. -/
theorem c9_counterexample :
    gloss15.key = lowerStr query15 ∧
    strContains (lowerStr rule15.text) (lowerStr query15) = false ∧
    (hasDigit query15 && strContains query15 rule15.number) = false ∧
    rule_score query15 rule15 = glossary_score query15 gloss15 ∧
    ¬ rule_score query15 rule15 < glossary_score query15 gloss15 := by decide

/-- C9, amended: for a query that exactly matches a glossary key, the
glossary entry scores strictly higher than any rule entry whose only
signal is word overlap, provided that rule shares at most 14 distinct
words with the query. -/
theorem c9_glossary_outranks_rules (query : String) (e : GlossaryEntry) (r : Rule)
    (hexact : e.key = lowerStr query)
    (hphrase : strContains (lowerStr r.text) (lowerStr query) = false)
    (hnum : (hasDigit query && strContains query r.number) = false)
    (hwords : sharedWordCount (lowerStr query) (lowerStr r.text) ≤ 14) :
    rule_score query r < glossary_score query e := by
  have h150 : strContains e.key (lowerStr query) = true := by
    rw [hexact]; exact strContains_self _
  have hmul : 10 * sharedWordCount (lowerStr query) (lowerStr r.text) ≤ 140 := by
    omega
  simp only [rule_score, glossary_score]
  rw [hphrase, hnum, h150]
  simp only [Bool.false_eq_true, if_false, Bool.true_or, if_true]
  omega

/-- C9 witness: the exact glossary match outscores a word-overlap-only
rule on a concrete corpus. -/
theorem c9_witness :
    rule_score "flying" blockRule < glossary_score "flying" flyingEntry :=
  c9_glossary_outranks_rules "flying" flyingEntry blockRule (by decide) (by decide)
    (by decide) (by decide)

end Tolaria
